import Mathlib

/-!
Shallow embedding of the RoboVis replay subsystem
(`src/data/robot_data_parser.py`, `src/data/joint_mapper.py`,
`src/data/replay_controller.py`) and proofs about its behaviour.

Joint position values are modelled as rationals (`ℚ`): the code only copies
values from the raw records into timeline entries and joint configurations,
never performing floating-point arithmetic on them, so the representation is
value-faithful for every claim considered here.

Python-level behaviours that matter to the claims are modelled explicitly:
* list slicing `xs[::f]` (raises `ValueError` on stride 0),
* list subscription `xs[i]` (negative-index wraparound, `IndexError` past it),
* `min`/`max` of a sequence (raise `ValueError` on an empty sequence),
* `dict` assignment (insertion-ordered association lists with overwrite).
-/

namespace RoboVis

/-- Joint position values (copied verbatim by the code, so modelled exactly). -/
abbrev JointVal := ℚ

/-- One element of a raw record's `parts` array: a part name and, when the
record carries `position.values` for it, the list of position values.
`position = none` models a part entry without `position`/`values`. -/
structure PartData where
  part : String
  position : Option (List JointVal)
deriving DecidableEq

/-- One raw record of the persisted snapshot array
(`sequenceId`, `timestampNs`, `parts`). -/
structure RawEntry where
  sequenceId : Int
  timestampNs : Int
  parts : List PartData
deriving DecidableEq

/-- One parsed timeline entry, as built by `RobotDataParser.parse_data`:
`sequence_id`, `timestamp_ns`, and the per-part position vectors as an
insertion-ordered dictionary. -/
structure Entry where
  sequence_id : Int
  timestamp_ns : Int
  parts : List (String × List JointVal)
deriving DecidableEq

/-- Python `d[k] = v` on an insertion-ordered dictionary: overwrite in place
when the key exists, otherwise append. -/
def dictInsert (d : List (String × α)) (k : String) (v : α) : List (String × α) :=
  match d with
  | [] => [(k, v)]
  | (k', v') :: rest => if k' = k then (k, v) :: rest else (k', v') :: dictInsert rest k v

/-- Helper for `sliceEvery`: take the current element when the countdown is
0 (then restart it at `f - 1`), otherwise skip it and decrement. -/
def sliceAux (f : Nat) : List α → Nat → List α
  | [], _ => []
  | x :: xs, 0 => x :: sliceAux f xs (f - 1)
  | _ :: xs, k + 1 => sliceAux f xs k

/-- Python slicing `xs[::f]` for stride `f ≥ 1`: every `f`-th element,
starting with the first. -/
def sliceEvery (f : Nat) (xs : List α) : List α :=
  sliceAux f xs 0

/-- The single kind of runtime error the embedded parser can raise:
Python's `ValueError` (zero slice stride, `min`/`max` of an empty sequence). -/
inductive PyError
  | valueError
deriving DecidableEq

/-- Python `xs[::f]` including the stride-0 failure: slicing with step 0
raises `ValueError`. -/
def pySliceStride (xs : List α) (f : Nat) : Except PyError (List α) :=
  if f = 0 then .error .valueError else .ok (sliceEvery f xs)

/-- The body of `parse_data`'s per-record loop, parsed-entry half: extract
`sequence_id`, `timestamp_ns` and, for each part entry carrying
`position.values`, record the vector under the part name. -/
def parseEntry (e : RawEntry) : Entry :=
  { sequence_id := e.sequenceId
    timestamp_ns := e.timestampNs
    parts := e.parts.foldl (fun acc pd =>
      match pd.position with
      | some vals => dictInsert acc pd.part vals
      | none => acc) [] }

/-- The body of `parse_data`'s per-record loop, joint-count half: for each
part entry carrying `position.values`, record the vector length under the
part name only if the part is not yet present (`if part_name not in
part_joint_counts`). -/
def updateCountsParts (counts : List (String × Nat)) : List PartData → List (String × Nat)
  | [] => counts
  | pd :: rest =>
    match pd.position with
    | some vals =>
      if (List.lookup pd.part counts).isSome then updateCountsParts counts rest
      else updateCountsParts (dictInsert counts pd.part vals.length) rest
    | none => updateCountsParts counts rest

/-- One record's contribution to `part_joint_counts`. -/
def updateCounts (counts : List (String × Nat)) (e : RawEntry) : List (String × Nat) :=
  updateCountsParts counts e.parts

/-- The result of `parse_data`: the parsed timeline (`self.parsed_data`) and
the per-part joint counts (`self.part_info`). -/
structure ParseResult where
  entries : List Entry
  part_info : List (String × Nat)
deriving DecidableEq

/-- `RobotDataParser.parse_data`: downsample the raw records by slicing
`raw_data[::downsample_factor]`, then build the parsed entries and the
per-part joint-count table from the kept records. -/
def parse_data (raw : List RawEntry) (downsample_factor : Nat) :
    Except PyError ParseResult :=
  match pySliceStride raw downsample_factor with
  | .error e => .error e
  | .ok ds => .ok { entries := ds.map parseEntry, part_info := ds.foldl updateCounts [] }

/-- Result of `get_data_by_index`: a timeline entry, the `None` ("not found")
sentinel, or a Python `IndexError` escaping from the list subscription. -/
inductive IndexResult
  | found (e : Entry)
  | notFound
  | indexError
deriving DecidableEq

/-- Python list subscription `xs[i]`: non-negative indices are direct,
negative indices count from the end (`len + i`), anything still out of
range raises `IndexError` (modelled as `none`). -/
def pyIndex (xs : List α) (i : Int) : Option α :=
  let j := if 0 ≤ i then i else (xs.length : Int) + i
  if 0 ≤ j then xs[j.toNat]? else none

/-- `RobotDataParser.get_data_by_index`: `None` when nothing is parsed or
`index >= len(parsed_data)`; otherwise Python subscription `parsed_data[index]`
(so negative indices wrap around rather than hitting the sentinel). -/
def get_data_by_index (pd : Option (List Entry)) (i : Int) : IndexResult :=
  match pd with
  | none => .notFound
  | some es =>
    if (es.length : Int) ≤ i then .notFound
    else
      match pyIndex es i with
      | some e => .found e
      | none => .indexError

/-- Python `min` over a list of integers: `ValueError` on the empty list. -/
def pyMin : List Int → Except PyError Int
  | [] => .error .valueError
  | x :: rest => .ok (rest.foldl min x)

/-- Python `max` over a list of integers: `ValueError` on the empty list. -/
def pyMax : List Int → Except PyError Int
  | [] => .error .valueError
  | x :: rest => .ok (rest.foldl max x)

/-- The dictionary returned by `get_timeline_info` on a parsed timeline. -/
structure TimelineInfo where
  total_entries : Nat
  sequence_range : Int × Int
  timestamp_range : Int × Int
  duration_seconds : ℚ
deriving DecidableEq

/-- Result of `get_timeline_info`: the empty-dictionary sentinel (nothing
parsed yet), a raised `ValueError`, or the populated info dictionary. -/
inductive InfoResult
  | emptyDict
  | err (e : PyError)
  | info (t : TimelineInfo)
deriving DecidableEq

/-- `RobotDataParser.get_timeline_info`: `{}` when nothing is parsed;
otherwise `min`/`max` over the sequence ids and timestamps (which raise
`ValueError` on an empty timeline) and the derived duration. -/
def get_timeline_info (pd : Option (List Entry)) : InfoResult :=
  match pd with
  | none => .emptyDict
  | some es =>
    let sids := es.map (·.sequence_id)
    let tss := es.map (·.timestamp_ns)
    match pyMin sids, pyMax sids, pyMin tss, pyMax tss with
    | .ok a, .ok b, .ok c, .ok d =>
      .info { total_entries := es.length
              sequence_range := (a, b)
              timestamp_range := (c, d)
              duration_seconds := ((d : ℚ) - (c : ℚ)) / 1000000000 }
    | _, _, _, _ => .err .valueError

/-! ## Joint mapper (`src/data/joint_mapper.py`) -/

/-- One value of the `part_to_urdf_mapping` table: the target URDF name and
the ordered joint-name list for a part. -/
structure UrdfMap where
  urdf_name : String
  joint_names : List String
deriving DecidableEq

/-- The mapper's configuration table, as an insertion-ordered dictionary
keyed by part name. -/
abbrev Mapping := List (String × UrdfMap)

/-- The hard-coded `JointMapper.part_to_urdf_mapping` table, in declaration
order. -/
def defaultMapping : Mapping :=
  [ ("ARM",
      { urdf_name := "infeed_and_squash_turner"
        joint_names :=
          [ "ur_base_link_to_shoulder", "shoulder_to_upper_arm",
            "upper_arm_to_forearm", "forearm_to_wrist_1",
            "wrist_1_to_wrist_2", "wrist_2_to_wrist_3" ] }),
    ("PEDESTAL",
      { urdf_name := "infeed_and_squash_turner"
        joint_names :=
          [ "robot_gantry_base_to_zstage", "robot_gantry_zstage_to_ystage" ] }),
    ("BAND_SEPARATOR",
      { urdf_name := "band_separator"
        joint_names :=
          [ "band_separator_base_to_ystage",
            "band_separator_ystage_to_lowerjaw_zstage",
            "band_separator_lowerjaw_zstage_to_xstage",
            "band_separator_ystage_to_upperjaw_zstage",
            "band_separator_upperjaw_zstage_to_xstage" ] }),
    ("EOAT_BLADE",
      { urdf_name := "infeed_and_squash_turner"
        joint_names := ["tool_base_to_blade"] }),
    ("EOAT_GRIPPER",
      { urdf_name := "infeed_and_squash_turner"
        joint_names := ["tool_base_to_left_paddle"] }),
    ("EOAT_EJECTOR",
      { urdf_name := "infeed_and_squash_turner"
        joint_names := ["tool_base_to_blade", "tool_base_to_left_paddle"] }) ]

/-- `JointMapper.get_all_urdf_names`: the URDF names appearing in the
mapping table, in first-appearance order, without duplicates. -/
def get_all_urdf_names (m : Mapping) : List String :=
  m.foldl (fun acc p => if p.2.urdf_name ∈ acc then acc else acc ++ [p.2.urdf_name]) []

/-- `JointMapper.get_joint_mapping_for_urdf`: part name → joint-name list,
restricted to the parts whose target URDF is `urdf`. -/
def get_joint_mapping_for_urdf (m : Mapping) (urdf : String) : List (String × List String) :=
  m.foldl (fun acc p =>
    if p.2.urdf_name = urdf then dictInsert acc p.1 p.2.joint_names else acc) []

/-- The inner loop of `create_joint_config_for_urdf`: `for i, joint_name in
enumerate(joint_names)`, binding `positions[i]` when `i < len(positions)`
and `0.0` otherwise. -/
def bindJoints (cfg : List (String × JointVal)) :
    List String → List JointVal → List (String × JointVal)
  | [], _ => cfg
  | j :: js, [] => bindJoints (dictInsert cfg j 0) js []
  | j :: js, v :: vs => bindJoints (dictInsert cfg j v) js vs

/-- `JointMapper.create_joint_config_for_urdf`: for each part mapping to the
URDF and present in the snapshot's `parts`, bind its joint names to the
snapshot's position vector index-for-index, defaulting missing trailing
values to `0.0`. -/
def create_joint_config_for_urdf (m : Mapping) (urdf : String) (robot_data : Entry) :
    List (String × JointVal) :=
  (get_joint_mapping_for_urdf m urdf).foldl (fun cfg pm =>
    match List.lookup pm.1 robot_data.parts with
    | some vals => bindJoints cfg pm.2 vals
    | none => cfg) []

/-! ## Replay controller (`src/data/replay_controller.py`) -/

/-- The controller's mutable replay state. -/
structure CtrlState where
  current_index : Nat
  is_playing : Bool
deriving DecidableEq

/-- The payload handed to the update callback: URDF name → joint config. -/
abbrev Payload := List (String × List (String × JointVal))

/-- `SimpleReplayController.get_current_entry`: the timeline entry at
`current_index` when in range, else `None`. -/
def get_current_entry (pd : List Entry) (s : CtrlState) : Option Entry :=
  pd[s.current_index]?

/-- `SimpleReplayController.get_current_sequence_id`. -/
def get_current_sequence_id (pd : List Entry) (s : CtrlState) : Option Int :=
  (get_current_entry pd s).map (·.sequence_id)

/-- The loop body of `_update_visualization`'s payload construction: add
the URDF's joint config to the payload dictionary, but only when it is
non-empty (`if joint_config:`). -/
def payloadStep (m : Mapping) (e : Entry) (cfgs : Payload) (u : String) : Payload :=
  let jc := create_joint_config_for_urdf m u e
  if jc.isEmpty then cfgs else dictInsert cfgs u jc

/-- The payload construction inside `_update_visualization`: one joint
config per URDF name, skipping URDFs whose config is empty. -/
def buildPayload (m : Mapping) (e : Entry) (urdfs : List String) : Payload :=
  urdfs.foldl (payloadStep m e) []

/-- `SimpleReplayController._update_visualization`: when there is a current
entry and a registered callback, invoke the callback with the built payload
(`some payload`); otherwise do nothing (`none`). -/
def update_visualization (m : Mapping) (pd : List Entry) (hasCallback : Bool)
    (s : CtrlState) : Option Payload :=
  match get_current_entry pd s, hasCallback with
  | some e, true => some (buildPayload m e (get_all_urdf_names m))
  | _, _ => none

/-- The callback invocations produced by one `_update_visualization` call,
tagged with the `current_index` at which each fires. -/
def emitAt (m : Mapping) (pd : List Entry) (hasCallback : Bool)
    (s : CtrlState) : List (Nat × Payload) :=
  (update_visualization m pd hasCallback s).toList.map (fun p => (s.current_index, p))

/-- `SimpleReplayController.goto_index`: bounds-checked absolute seek; on
success set `current_index` and emit one update; on failure leave the state
unchanged. Returns the new state, the success flag, and the emissions. -/
def goto_index (m : Mapping) (pd : List Entry) (hasCallback : Bool)
    (s : CtrlState) (i : Int) : CtrlState × Bool × List (Nat × Payload) :=
  if 0 ≤ i ∧ i < (pd.length : Int) then
    let s' := { s with current_index := i.toNat }
    (s', true, emitAt m pd hasCallback s')
  else (s, false, [])

/-- The linear scan inside `goto_sequence_id`: index of the first entry with
the given sequence id (`for i, entry in enumerate(self.parser.parsed_data)`). -/
def findSeqIndex (sid : Int) : List Entry → Option Nat
  | [] => none
  | e :: rest =>
    if e.sequence_id = sid then some 0
    else (findSeqIndex sid rest).map (· + 1)

/-- `SimpleReplayController.goto_sequence_id`: jump to the first entry with
the given sequence id, emitting one update; report failure when the id is
absent. -/
def goto_sequence_id (m : Mapping) (pd : List Entry) (hasCallback : Bool)
    (s : CtrlState) (sid : Int) : CtrlState × Bool × List (Nat × Payload) :=
  match findSeqIndex sid pd with
  | some i =>
    let s' := { s with current_index := i }
    (s', true, emitAt m pd hasCallback s')
  | none => (s, false, [])

/-- One pass of `_playback_loop`'s `while` body (entered only while
playing): emit the current frame, advance `current_index`; at the end of
the timeline transition out of playing, reset `current_index` to 0 and emit
one more update for the reset frame. -/
def playback_iteration (m : Mapping) (pd : List Entry) (hasCallback : Bool)
    (s : CtrlState) : CtrlState × List (Nat × Payload) :=
  if s.is_playing then
    let em1 := emitAt m pd hasCallback s
    let idx := s.current_index + 1
    if pd.length ≤ idx then
      let s' : CtrlState := { current_index := 0, is_playing := false }
      (s', em1 ++ emitAt m pd hasCallback s')
    else ({ s with current_index := idx }, em1)
  else (s, [])

/-! ## Library lemmas about the embedded primitives -/

theorem sliceAux_shift (f : Nat) (xs : List α) (k : Nat) :
    sliceAux f xs k = sliceAux f (xs.drop k) 0 := by
  induction xs generalizing k with
  | nil => simp [sliceAux]
  | cons x xs ih =>
    cases k with
    | zero => rfl
    | succ k => rw [List.drop_succ_cons]; exact ih k

theorem sliceEvery_cons (f : Nat) (x : α) (xs : List α) :
    sliceEvery f (x :: xs) = x :: sliceEvery f (xs.drop (f - 1)) := by
  unfold sliceEvery
  rw [sliceAux, sliceAux_shift]

theorem sliceEvery_getElem? (f : Nat) (hf : 1 ≤ f) (xs : List α) (i : Nat) :
    (sliceEvery f xs)[i]? = xs[i * f]? := by
  match xs, i with
  | [], i => simp [sliceEvery, sliceAux]
  | x :: xs, 0 => simp [sliceEvery_cons]
  | x :: xs, i + 1 =>
    have ih := sliceEvery_getElem? f hf (xs.drop (f - 1)) i
    have harith : (i + 1) * f = (f - 1 + i * f) + 1 := by
      rw [Nat.succ_mul]
      generalize i * f = k
      omega
    rw [sliceEvery_cons, List.getElem?_cons_succ, ih, List.getElem?_drop, harith,
      List.getElem?_cons_succ]
termination_by xs.length
decreasing_by simp only [List.length_drop, List.length_cons]; omega

theorem sliceEvery_length (f : Nat) (hf : 1 ≤ f) (xs : List α) :
    (sliceEvery f xs).length = (xs.length + f - 1) / f := by
  match xs with
  | [] =>
    simp only [sliceEvery, sliceAux, List.length_nil]
    rw [Nat.div_eq_of_lt (by omega)]
  | x :: xs =>
    have ih := sliceEvery_length f hf (xs.drop (f - 1))
    rw [sliceEvery_cons]
    simp only [List.length_cons, List.length_drop] at ih ⊢
    rw [ih]
    rcases Nat.lt_or_ge xs.length (f - 1) with h | h
    · have h1 : xs.length - (f - 1) = 0 := by omega
      rw [h1, Nat.div_eq_of_lt (by omega)]
      have h3 : xs.length + 1 + f - 1 = xs.length + f := by omega
      rw [h3, Nat.add_div_right _ (by omega : 0 < f),
        Nat.div_eq_of_lt (by omega : xs.length < f)]
    · have h4 : xs.length - (f - 1) + f - 1 = xs.length := by omega
      have h5 : xs.length + 1 + f - 1 = xs.length + f := by omega
      rw [h4, h5, Nat.add_div_right _ (by omega : 0 < f)]
termination_by xs.length
decreasing_by simp only [List.length_drop, List.length_cons]; omega

theorem lookup_dictInsert (d : List (String × α)) (k p : String) (v : α) :
    List.lookup p (dictInsert d k v) = if k = p then some v else List.lookup p d := by
  induction d with
  | nil =>
    rcases eq_or_ne k p with h | h
    · subst h; simp [dictInsert]
    · rw [dictInsert, List.lookup_cons, beq_false_of_ne (Ne.symm h), if_neg h]
  | cons hd tl ih =>
    obtain ⟨a, b⟩ := hd
    rcases eq_or_ne a k with hak | hak
    · subst hak
      rcases eq_or_ne a p with hap | hap
      · subst hap; simp [dictInsert, List.lookup_cons]
      · simp [dictInsert, List.lookup_cons, beq_false_of_ne (Ne.symm hap), hap]
    · rcases eq_or_ne a p with hap | hap
      · subst hap
        simp only [dictInsert, List.lookup_cons]
        simp [hak, List.lookup_cons]
        rw [if_neg (fun h => hak (h.symm : a = k))]
      · simp [dictInsert, hak, List.lookup_cons, beq_false_of_ne (Ne.symm hap),
          hap, ih]

theorem dictInsert_of_lookup_none (d : List (String × α)) (k : String) (v : α)
    (h : List.lookup k d = none) : dictInsert d k v = d ++ [(k, v)] := by
  induction d with
  | nil => rfl
  | cons hd tl ih =>
    obtain ⟨a, b⟩ := hd
    rcases eq_or_ne a k with hak | hak
    · subst hak; simp [List.lookup_cons] at h
    · rw [List.lookup_cons] at h
      have hka : (k == a) = false := by simp [beq_iff_eq, Ne.symm hak]
      rw [hka] at h
      simp only [dictInsert, hak, if_false, List.cons_append]
      rw [ih h]

theorem lookup_append_none (l₁ l₂ : List (String × α)) (p : String)
    (h1 : List.lookup p l₁ = none) (h2 : List.lookup p l₂ = none) :
    List.lookup p (l₁ ++ l₂) = none := by
  induction l₁ with
  | nil => rw [List.nil_append]; exact h2
  | cons hd tl ih =>
    obtain ⟨a, b⟩ := hd
    rw [List.lookup_cons] at h1
    rw [List.cons_append, List.lookup_cons]
    cases hpa : (p == a)
    · simp only [hpa] at h1 ⊢
      exact ih h1
    · exact absurd h1 (by simp [hpa])

theorem pyIndex_nonneg (xs : List α) (i : Int) (h0 : 0 ≤ i) :
    pyIndex xs i = xs[i.toNat]? := by
  simp [pyIndex, h0]

theorem pyIndex_neg_inrange (xs : List α) (i : Int)
    (hn : -(xs.length : Int) ≤ i) (h0 : i < 0) :
    pyIndex xs i = xs[((xs.length : Int) + i).toNat]? := by
  have h1 : ¬ 0 ≤ i := by omega
  have h2 : 0 ≤ (xs.length : Int) + i := by omega
  simp [pyIndex, h1, h2]

theorem pyIndex_neg_outrange (xs : List α) (i : Int)
    (h : i < -(xs.length : Int)) : pyIndex xs i = none := by
  have h1 : ¬ 0 ≤ i := by omega
  have h2 : ¬ 0 ≤ (xs.length : Int) + i := by omega
  simp [pyIndex, h1, h2]

/-! ## Concrete data used in counterexamples and witnesses -/

/-- A timeline entry with sequence id 100. -/
def entryA : Entry := { sequence_id := 100, timestamp_ns := 10, parts := [] }

/-- A timeline entry with sequence id 101. -/
def entryB : Entry := { sequence_id := 101, timestamp_ns := 20, parts := [] }

/-! ## Claim theorems -/

/-- C10: the precondition `downsample_factor ≥ 1` is not checked by
`parse_data`: for factor 0 it fails with the runtime `ValueError` raised by
the zero-stride slice itself — the very same error `raw_data[::0]` raises —
and no validation rejects the factor before the slice selects records. -/
theorem parse_data_zero_factor_raises (raw : List RawEntry) :
    parse_data raw 0 = .error .valueError ∧
    pySliceStride raw 0 = (.error .valueError : Except PyError (List RawEntry)) :=
  ⟨rfl, rfl⟩

/-- C9: `get_timeline_info` returns the empty-dictionary sentinel only when
nothing has been parsed yet; on a parsed but empty timeline it fails with
the `ValueError` raised by `min` of an empty sequence, and on any non-empty
timeline it returns a populated info dictionary. -/
theorem get_timeline_info_empty_behaviour :
    get_timeline_info none = .emptyDict ∧
    get_timeline_info (some []) = .err .valueError ∧
    ∀ (e : Entry) (es : List Entry), ∃ t, get_timeline_info (some (e :: es)) = .info t :=
  ⟨rfl, rfl, fun _ _ => ⟨_, rfl⟩⟩

/-- C6 counterexample: on a parsed 2-entry timeline, `get_data_by_index (-1)`
returns the LAST entry (Python negative-index wraparound), not the `None`
sentinel the claim demands for every negative index. -/
theorem get_data_by_index_neg_counterexample :
    get_data_by_index (some [entryA, entryB]) (-1) = .found entryB := by
  decide

/-- C6 amended: `get_data_by_index` returns the entry at position `i` for
`0 ≤ i < L` and the `None` sentinel for `i ≥ L`; but a negative `i` follows
Python indexing — for `-L ≤ i < 0` it returns the entry at `L + i`, and
only for `i < -L` does the subscription raise `IndexError`. -/
theorem get_data_by_index_spec (es : List Entry) (i : Int) :
    ((es.length : Int) ≤ i → get_data_by_index (some es) i = .notFound) ∧
    (0 ≤ i → i < (es.length : Int) →
      ∃ e, es[i.toNat]? = some e ∧ get_data_by_index (some es) i = .found e) ∧
    (-(es.length : Int) ≤ i → i < 0 →
      ∃ e, es[((es.length : Int) + i).toNat]? = some e ∧
        get_data_by_index (some es) i = .found e) ∧
    (i < -(es.length : Int) → get_data_by_index (some es) i = .indexError) := by
  refine ⟨fun h => ?_, fun h0 hl => ?_, fun hn h0 => ?_, fun h => ?_⟩
  · simp [get_data_by_index, h]
  · have hlen : ¬ (es.length : Int) ≤ i := by omega
    have ht : i.toNat < es.length := by omega
    refine ⟨es[i.toNat], List.getElem?_eq_getElem ht, ?_⟩
    simp only [get_data_by_index, if_neg hlen, pyIndex_nonneg es i h0,
      List.getElem?_eq_getElem ht]
  · have hlen : ¬ (es.length : Int) ≤ i := by omega
    have ht : ((es.length : Int) + i).toNat < es.length := by omega
    refine ⟨es[((es.length : Int) + i).toNat], List.getElem?_eq_getElem ht, ?_⟩
    simp only [get_data_by_index, if_neg hlen, pyIndex_neg_inrange es i hn h0,
      List.getElem?_eq_getElem ht]
  · have hlen : ¬ (es.length : Int) ≤ i := by omega
    simp only [get_data_by_index, if_neg hlen, pyIndex_neg_outrange es i h]

/-- Witness for the amended C6 theorem at a concrete in-range index. -/
theorem get_data_by_index_spec_witness :
    ∃ e, [entryA, entryB][(1 : Int).toNat]? = some e ∧
      get_data_by_index (some [entryA, entryB]) 1 = .found e :=
  (get_data_by_index_spec [entryA, entryB] 1).2.1 (by decide) (by decide)

/-- C5 counterexample: with the controller playing at index 0 on a 2-entry
timeline, `goto_index 1` succeeds — and leaves `is_playing` TRUE. The seek
neither pauses first nor leaves the controller paused, refuting the claim. -/
theorem goto_index_while_playing_counterexample :
    (goto_index defaultMapping [entryA, entryB] true ⟨0, true⟩ 1).2.1 = true ∧
    (goto_index defaultMapping [entryA, entryB] true ⟨0, true⟩ 1).1.is_playing = true ∧
    (goto_index defaultMapping [entryA, entryB] true ⟨0, true⟩ 1).1.current_index = 1 := by
  refine ⟨?_, ?_, ?_⟩ <;> rfl

/-- C5 amended: a seek never touches the play state at all — `goto_index`
and `goto_sequence_id` leave `is_playing` exactly as it was (playing stays
playing, paused stays paused), whether or not the seek succeeds. -/
theorem seek_preserves_play_state (m : Mapping) (pd : List Entry) (hc : Bool)
    (s : CtrlState) (i sid : Int) :
    (goto_index m pd hc s i).1.is_playing = s.is_playing ∧
    (goto_sequence_id m pd hc s sid).1.is_playing = s.is_playing := by
  constructor
  · unfold goto_index
    split <;> rfl
  · unfold goto_sequence_id
    cases h : findSeqIndex sid pd <;> simp [h]

/-- A raw record with sequence id 100 (part "A", 2 values). -/
def rawA : RawEntry := { sequenceId := 100, timestampNs := 10, parts := [⟨"A", some [1, 2]⟩] }

/-- A raw record with sequence id 101 (part "A", 2 values). -/
def rawB : RawEntry := { sequenceId := 101, timestampNs := 20, parts := [⟨"A", some [3, 4]⟩] }

/-- A raw record with sequence id 102 (part "A", 2 values). -/
def rawC : RawEntry := { sequenceId := 102, timestampNs := 30, parts := [⟨"A", some [5, 6]⟩] }

/-- C1: for every raw list of length N and every downsample factor `f ≥ 1`,
`parse_data f` succeeds and its timeline has exactly `⌈N/f⌉` entries, the
`i`-th of which is the parse of raw record `i·f` (stride selection); in
particular the first raw record is always the first timeline entry. -/
theorem parse_data_downsample_spec (raw : List RawEntry) (f : Nat) (hf : 1 ≤ f) :
    ∃ r : ParseResult, parse_data raw f = .ok r ∧
      r.entries.length = (raw.length + f - 1) / f ∧
      (∀ i : Nat, r.entries[i]? = (raw[i * f]?).map parseEntry) ∧
      r.entries.head? = raw.head?.map parseEntry := by
  have hf0 : f ≠ 0 := by omega
  refine ⟨⟨(sliceEvery f raw).map parseEntry, (sliceEvery f raw).foldl updateCounts []⟩,
    by simp [parse_data, pySliceStride, hf0], ?_, ?_, ?_⟩
  · rw [List.length_map, sliceEvery_length f hf raw]
  · intro i
    rw [List.getElem?_map, sliceEvery_getElem? f hf raw i]
  · rw [List.head?_eq_getElem?, List.head?_eq_getElem?, List.getElem?_map,
      sliceEvery_getElem? f hf raw 0, Nat.zero_mul]

/-- Witness for C1 on a concrete 3-record source with factor 2:
ceil(3/2) = 2 entries, records 0 and 2 kept, record 0 first. -/
theorem parse_data_downsample_spec_witness :
    ∃ r : ParseResult, parse_data [rawA, rawB, rawC] 2 = .ok r ∧
      r.entries.length = ([rawA, rawB, rawC].length + 2 - 1) / 2 ∧
      (∀ i : Nat, r.entries[i]? = ([rawA, rawB, rawC][i * 2]?).map parseEntry) ∧
      r.entries.head? = [rawA, rawB, rawC].head?.map parseEntry :=
  parse_data_downsample_spec [rawA, rawB, rawC] 2 (by decide)

theorem update_visualization_eq_some (m : Mapping) (pd : List Entry) (s : CtrlState)
    (h : s.current_index < pd.length) :
    update_visualization m pd true s =
      some (buildPayload m (pd.get ⟨s.current_index, h⟩) (get_all_urdf_names m)) := by
  unfold update_visualization get_current_entry
  rw [List.getElem?_eq_getElem h]
  rfl

/-- C2: in one pass of the playback loop body from the last index of a
non-empty timeline while playing, the controller emits the current frame,
detects the end, transitions out of playing, resets `current_index` to 0,
and emits exactly one more update — for the reset frame at index 0. -/
theorem playback_end_auto_reset (m : Mapping) (pd : List Entry) (s : CtrlState)
    (hplay : s.is_playing = true) (hend : s.current_index + 1 = pd.length) :
    (playback_iteration m pd true s).1 = ⟨0, false⟩ ∧
    (playback_iteration m pd true s).2.map Prod.fst = [s.current_index, 0] := by
  have hci : s.current_index < pd.length := by omega
  have h0 : 0 < pd.length := by omega
  have hstep : playback_iteration m pd true s =
      (⟨0, false⟩, emitAt m pd true s ++ emitAt m pd true ⟨0, false⟩) := by
    unfold playback_iteration
    rw [hplay]
    simp [if_pos (by omega : pd.length ≤ s.current_index + 1)]
  rw [hstep]
  refine ⟨rfl, ?_⟩
  unfold emitAt
  rw [update_visualization_eq_some m pd s hci,
    update_visualization_eq_some m pd ⟨0, false⟩ h0]
  simp

/-- Witness for C2 on a concrete 2-entry timeline at its last index. -/
theorem playback_end_auto_reset_witness :
    (playback_iteration defaultMapping [entryA, entryB] true ⟨1, true⟩).1 = ⟨0, false⟩ ∧
    (playback_iteration defaultMapping [entryA, entryB] true ⟨1, true⟩).2.map Prod.fst
      = [1, 0] :=
  playback_end_auto_reset defaultMapping [entryA, entryB] ⟨1, true⟩ rfl (by decide)

theorem findSeqIndex_of_nodup (pd : List Entry) (i : Nat) (hi : i < pd.length)
    (hnd : (pd.map (·.sequence_id)).Nodup) :
    findSeqIndex (pd.get ⟨i, hi⟩).sequence_id pd = some i := by
  induction pd generalizing i with
  | nil => exact absurd hi (Nat.not_lt_zero i)
  | cons e rest ih =>
    rw [List.map_cons, List.nodup_cons] at hnd
    obtain ⟨hnotin, hnd'⟩ := hnd
    cases i with
    | zero => simp [findSeqIndex]
    | succ i =>
      have hi' : i < rest.length := by
        simpa [List.length_cons] using hi
      have hget : (e :: rest).get ⟨i + 1, hi⟩ = rest.get ⟨i, hi'⟩ := rfl
      rw [hget]
      have hmem : rest.get ⟨i, hi'⟩ ∈ rest := List.get_mem rest i hi'
      have hne : ¬ e.sequence_id = (rest.get ⟨i, hi'⟩).sequence_id := by
        intro hcontra
        exact hnotin (hcontra ▸ List.mem_map_of_mem (·.sequence_id) hmem)
      rw [findSeqIndex, if_neg hne, ih i hi' hnd']
      rfl

/-- C8: on a timeline with pairwise-distinct sequence ids, `goto_index i`
succeeds for every in-range `i`; reading the current sequence id and
seeking to it with `goto_sequence_id` then succeeds and lands back on
index `i` (seek round-trip). -/
theorem seek_round_trip (m : Mapping) (pd : List Entry) (hc : Bool) (s : CtrlState)
    (i : Nat) (hnd : (pd.map (·.sequence_id)).Nodup) (hi : i < pd.length) :
    (goto_index m pd hc s i).2.1 = true ∧
    ∃ sid, get_current_sequence_id pd (goto_index m pd hc s i).1 = some sid ∧
      (goto_sequence_id m pd hc (goto_index m pd hc s i).1 sid).2.1 = true ∧
      (goto_sequence_id m pd hc (goto_index m pd hc s i).1 sid).1.current_index = i := by
  have hcond : 0 ≤ (i : Int) ∧ (i : Int) < (pd.length : Int) :=
    ⟨Int.ofNat_nonneg i, by exact_mod_cast hi⟩
  have hgi : goto_index m pd hc s i =
      ({ s with current_index := i }, true, emitAt m pd hc { s with current_index := i }) := by
    unfold goto_index
    rw [if_pos hcond]
    simp [Int.toNat_ofNat]
  rw [hgi]
  refine ⟨rfl, ?_⟩
  refine ⟨(pd.get (⟨i, hi⟩ : Fin pd.length)).sequence_id, ?_, ?_, ?_⟩
  · unfold get_current_sequence_id get_current_entry
    simp [List.getElem?_eq_getElem hi]
  · unfold goto_sequence_id
    rw [findSeqIndex_of_nodup pd i hi hnd]
  · unfold goto_sequence_id
    rw [findSeqIndex_of_nodup pd i hi hnd]

/-- Witness for C8 on a concrete 2-entry timeline with distinct sequence
ids 100 and 101, at index 1. -/
theorem seek_round_trip_witness :
    (goto_index defaultMapping [entryA, entryB] true ⟨0, false⟩ 1).2.1 = true ∧
    ∃ sid, get_current_sequence_id [entryA, entryB]
        (goto_index defaultMapping [entryA, entryB] true ⟨0, false⟩ 1).1 = some sid ∧
      (goto_sequence_id defaultMapping [entryA, entryB] true
        (goto_index defaultMapping [entryA, entryB] true ⟨0, false⟩ 1).1 sid).2.1 = true ∧
      (goto_sequence_id defaultMapping [entryA, entryB] true
        (goto_index defaultMapping [entryA, entryB] true ⟨0, false⟩ 1).1 sid).1.current_index
        = 1 :=
  seek_round_trip defaultMapping [entryA, entryB] true ⟨0, false⟩ 1 (by decide) (by decide)

theorem lookup_bindJoints_not_mem (cfg : List (String × JointVal)) (js : List String)
    (vs : List JointVal) (p : String) (hp : p ∉ js) :
    List.lookup p (bindJoints cfg js vs) = List.lookup p cfg := by
  induction js generalizing cfg vs with
  | nil => cases vs <;> rfl
  | cons j js ih =>
    have hpj : ¬ j = p := fun h => hp (h ▸ List.mem_cons_self j js)
    have hp' : p ∉ js := fun h => hp (List.mem_cons_of_mem j h)
    cases vs with
    | nil =>
      rw [bindJoints, ih _ _ hp', lookup_dictInsert, if_neg hpj]
    | cons v vs =>
      rw [bindJoints, ih _ _ hp', lookup_dictInsert, if_neg hpj]

theorem lookup_bindJoints_get (cfg : List (String × JointVal)) (js : List String)
    (vs : List JointVal) (hnd : js.Nodup) (i : Nat) (hi : i < js.length) :
    List.lookup (js.get ⟨i, hi⟩) (bindJoints cfg js vs) = some (vs.getD i 0) := by
  match js, vs, i with
  | j :: js, vs, 0 =>
    obtain ⟨hj, -⟩ := List.nodup_cons.mp hnd
    cases vs with
    | nil =>
      rw [bindJoints]
      show List.lookup j (bindJoints (dictInsert cfg j 0) js []) = _
      rw [lookup_bindJoints_not_mem _ _ _ _ hj, lookup_dictInsert, if_pos rfl]
      rfl
    | cons v vs =>
      rw [bindJoints]
      show List.lookup j (bindJoints (dictInsert cfg j v) js vs) = _
      rw [lookup_bindJoints_not_mem _ _ _ _ hj, lookup_dictInsert, if_pos rfl]
      rfl
  | j :: js, vs, i + 1 =>
    obtain ⟨-, hnd'⟩ := List.nodup_cons.mp hnd
    have hi' : i < js.length := by simpa [List.length_cons] using hi
    have hget : (j :: js).get ⟨i + 1, hi⟩ = js.get ⟨i, hi'⟩ := rfl
    cases vs with
    | nil =>
      rw [bindJoints, hget, lookup_bindJoints_get (dictInsert cfg j 0) js [] hnd' i hi']
      rfl
    | cons v vs =>
      rw [bindJoints, hget, lookup_bindJoints_get (dictInsert cfg j v) js vs hnd' i hi']
      rfl

/-- C3: for a part configured with `m` distinct joint names and a snapshot
whose position vector for that part has only `k < m` values, the per-URDF
joint config binds the first `k` joint names to the vector's values
index-for-index and each of the `m - k` trailing joint names to `0.0`
(`List.getD i 0` is exactly that: `vs[i]` for `i < k`, else `0`). -/
theorem short_vector_zero_fill (p u : String) (js : List String) (vs : List JointVal)
    (robot : Entry) (hnd : js.Nodup) (_hshort : vs.length < js.length)
    (hlook : List.lookup p robot.parts = some vs) (i : Nat) (hi : i < js.length) :
    List.lookup (js.get ⟨i, hi⟩)
        (create_joint_config_for_urdf [(p, ⟨u, js⟩)] u robot) = some (vs.getD i 0) := by
  have hmap : get_joint_mapping_for_urdf [(p, ⟨u, js⟩)] u = [(p, js)] := by
    simp [get_joint_mapping_for_urdf, dictInsert]
  unfold create_joint_config_for_urdf
  rw [hmap]
  simp only [List.foldl_cons, List.foldl_nil, hlook]
  exact lookup_bindJoints_get [] js vs hnd i hi

/-- The snapshot of the spec's mapper scenario: part "ARM" carries the
short vector `[1.0, 2.0]`. -/
def c3robot : Entry := { sequence_id := 42, timestamp_ns := 0, parts := [("ARM", [1, 2])] }

/-- Witness for C3: the spec's mapper scenario — part "ARM" → urdf "cell"
with joints `["j1","j2","j3"]`, snapshot vector `[1.0, 2.0]` — yields
`j1 ↦ 1.0`, `j2 ↦ 2.0`, `j3 ↦ 0.0`. -/
theorem short_vector_zero_fill_witness :
    List.lookup "j1" (create_joint_config_for_urdf
      [("ARM", ⟨"cell", ["j1", "j2", "j3"]⟩)] "cell" c3robot) = some 1 ∧
    List.lookup "j2" (create_joint_config_for_urdf
      [("ARM", ⟨"cell", ["j1", "j2", "j3"]⟩)] "cell" c3robot) = some 2 ∧
    List.lookup "j3" (create_joint_config_for_urdf
      [("ARM", ⟨"cell", ["j1", "j2", "j3"]⟩)] "cell" c3robot) = some 0 :=
  ⟨short_vector_zero_fill "ARM" "cell" ["j1", "j2", "j3"] [1, 2] c3robot
      (by decide) (by decide) rfl 0 (by decide),
    short_vector_zero_fill "ARM" "cell" ["j1", "j2", "j3"] [1, 2] c3robot
      (by decide) (by decide) rfl 1 (by decide),
    short_vector_zero_fill "ARM" "cell" ["j1", "j2", "j3"] [1, 2] c3robot
      (by decide) (by decide) rfl 2 (by decide)⟩

/-- Characterization helper: the joint count recorded by one record's
`parts` scan for part `p` — the value-list length of the first part entry
named `p` that carries `position.values`. -/
def partCountInParts : List PartData → String → Option Nat
  | [], _ => none
  | pd :: rest, p =>
    match pd.position with
    | some vals => if pd.part = p then some vals.length else partCountInParts rest p
    | none => partCountInParts rest p

/-- Characterization helper: the joint count for part `p` taken from the
first kept record containing `p` with position values. -/
def firstRawCount : List RawEntry → String → Option Nat
  | [], _ => none
  | e :: rest, p =>
    match partCountInParts e.parts p with
    | some n => some n
    | none => firstRawCount rest p

theorem lookup_updateCountsParts (l : List PartData) (counts : List (String × Nat))
    (p : String) :
    List.lookup p (updateCountsParts counts l) =
      match List.lookup p counts with
      | some n => some n
      | none => partCountInParts l p := by
  induction l generalizing counts with
  | nil =>
    cases h : List.lookup p counts <;> simp [updateCountsParts, partCountInParts, h]
  | cons pd rest ih =>
    cases hpos : pd.position with
    | none =>
      simp only [updateCountsParts, hpos]
      rw [ih]
      cases h : List.lookup p counts <;> simp [partCountInParts, hpos, h]
    | some vals =>
      by_cases hin : (List.lookup pd.part counts).isSome
      · simp only [updateCountsParts, hpos, if_pos hin]
        rw [ih]
        by_cases hpp : pd.part = p
        · subst hpp
          obtain ⟨n, hn⟩ := Option.isSome_iff_exists.mp hin
          simp [hn]
        · cases h : List.lookup p counts <;> simp [partCountInParts, hpos, h, hpp]
      · simp only [updateCountsParts, hpos, if_neg hin]
        rw [ih, lookup_dictInsert]
        have hnone : List.lookup pd.part counts = none :=
          Option.not_isSome_iff_eq_none.mp hin
        by_cases hpp : pd.part = p
        · subst hpp
          simp [hnone, partCountInParts, hpos]
        · cases h : List.lookup p counts <;> simp [partCountInParts, hpos, h, hpp]

theorem lookup_foldl_updateCounts (raws : List RawEntry)
    (counts : List (String × Nat)) (p : String) :
    List.lookup p (raws.foldl updateCounts counts) =
      match List.lookup p counts with
      | some n => some n
      | none => firstRawCount raws p := by
  induction raws generalizing counts with
  | nil => cases h : List.lookup p counts <;> simp [firstRawCount, h]
  | cons e rest ih =>
    rw [List.foldl_cons, ih]
    show (match List.lookup p (updateCountsParts counts e.parts) with
      | some n => some n
      | none => firstRawCount rest p) = _
    rw [lookup_updateCountsParts]
    cases h : List.lookup p counts
    · cases h2 : partCountInParts e.parts p <;> simp [firstRawCount, h2]
    · simp

/-- C4 counterexample raw record: part "A" with 2 position values. -/
def c4rawA : RawEntry := { sequenceId := 1, timestampNs := 10, parts := [⟨"A", some [1, 2]⟩] }

/-- C4 counterexample raw record: part "A" with 3 position values. -/
def c4rawB : RawEntry := { sequenceId := 2, timestampNs := 20, parts := [⟨"A", some [1, 2, 3]⟩] }

/-- C4 counterexample: two kept records carry 2 and then 3 position values
for the same part "A", yet `parse_data` succeeds: both records are kept
verbatim (with their differing vector lengths) and `part_info` silently
records the first-seen count 2. No data-integrity error is raised or
reported anywhere while building the timeline. -/
theorem parse_data_dof_mismatch_counterexample :
    parse_data [c4rawA, c4rawB] 1 =
      .ok { entries := [{ sequence_id := 1, timestamp_ns := 10, parts := [("A", [1, 2])] },
                        { sequence_id := 2, timestamp_ns := 20, parts := [("A", [1, 2, 3])] }],
            part_info := [("A", 2)] } := by
  rfl

/-- C4 amended: `parse_data` performs no per-part DOF validation at all —
for every raw list and factor `f ≥ 1` it succeeds, keeps every selected
record's part vectors verbatim (mismatched lengths included), and its
`part_info` table records, for each part, the vector length from the first
kept record containing that part, silently ignoring later mismatches. -/
theorem parse_data_dof_mismatch_tolerated (raw : List RawEntry) (f : Nat) (hf : 1 ≤ f) :
    ∃ r : ParseResult, parse_data raw f = .ok r ∧
      (∀ p : String, List.lookup p r.part_info = firstRawCount (sliceEvery f raw) p) ∧
      (∀ i : Nat, r.entries[i]? = (raw[i * f]?).map parseEntry) := by
  have hf0 : f ≠ 0 := by omega
  refine ⟨⟨(sliceEvery f raw).map parseEntry, (sliceEvery f raw).foldl updateCounts []⟩,
    by simp [parse_data, pySliceStride, hf0], fun p => ?_, fun i => ?_⟩
  · rw [lookup_foldl_updateCounts]
    rfl
  · rw [List.getElem?_map, sliceEvery_getElem? f hf raw i]

/-- Witness for the amended C4 theorem on the concrete mismatched source. -/
theorem parse_data_dof_mismatch_tolerated_witness :
    ∃ r : ParseResult, parse_data [c4rawA, c4rawB] 1 = .ok r ∧
      (∀ p : String, List.lookup p r.part_info = firstRawCount (sliceEvery 1 [c4rawA, c4rawB]) p) ∧
      (∀ i : Nat, r.entries[i]? = ([c4rawA, c4rawB][i * 1]?).map parseEntry) :=
  parse_data_dof_mismatch_tolerated [c4rawA, c4rawB] 1 (by decide)

theorem get_all_urdf_names_nodup (m : Mapping) : (get_all_urdf_names m).Nodup := by
  suffices h : ∀ (l : Mapping) (acc : List String), acc.Nodup →
      (l.foldl (fun acc p =>
        if p.2.urdf_name ∈ acc then acc else acc ++ [p.2.urdf_name]) acc).Nodup by
    exact h m [] List.nodup_nil
  intro l
  induction l with
  | nil => intro acc h; exact h
  | cons p rest ih =>
    intro acc hacc
    rw [List.foldl_cons]
    by_cases hmem : p.2.urdf_name ∈ acc
    · rw [if_pos hmem]; exact ih acc hacc
    · rw [if_neg hmem]
      refine ih _ ?_
      rw [List.nodup_append]
      exact ⟨hacc, List.nodup_singleton _, by simp [List.disjoint_singleton, hmem]⟩

theorem payloadStep_empty (m : Mapping) (e : Entry) (acc : Payload) (u : String)
    (h : (create_joint_config_for_urdf m u e).isEmpty = true) :
    payloadStep m e acc u = acc := by
  simp [payloadStep, h]

theorem payloadStep_nonempty (m : Mapping) (e : Entry) (acc : Payload) (u : String)
    (h : ¬ (create_joint_config_for_urdf m u e).isEmpty = true) :
    payloadStep m e acc u = dictInsert acc u (create_joint_config_for_urdf m u e) := by
  simp [payloadStep, h]

theorem buildPayload_eq (m : Mapping) (e : Entry) (urdfs : List String)
    (hnd : urdfs.Nodup) :
    buildPayload m e urdfs =
      (urdfs.filter (fun u => !(create_joint_config_for_urdf m u e).isEmpty)).map
        (fun u => (u, create_joint_config_for_urdf m u e)) := by
  suffices h : ∀ (urdfs : List String) (acc : Payload), urdfs.Nodup →
      (∀ u ∈ urdfs, List.lookup u acc = none) →
      urdfs.foldl (payloadStep m e) acc =
        acc ++ (urdfs.filter (fun u => !(create_joint_config_for_urdf m u e).isEmpty)).map
          (fun u => (u, create_joint_config_for_urdf m u e)) by
    have := h urdfs [] hnd (fun u _ => rfl)
    simpa [buildPayload] using this
  intro urdfs
  induction urdfs with
  | nil => intro acc _ _; simp
  | cons u rest ih =>
    intro acc hnd hfresh
    obtain ⟨hu, hnd'⟩ := List.nodup_cons.mp hnd
    rw [List.foldl_cons]
    by_cases hempty : (create_joint_config_for_urdf m u e).isEmpty = true
    · rw [payloadStep_empty m e acc u hempty,
        ih acc hnd' (fun v hv => hfresh v (List.mem_cons_of_mem u hv))]
      simp [List.filter_cons, hempty]
    · have hlook : List.lookup u acc = none := hfresh u (List.mem_cons_self u rest)
      rw [payloadStep_nonempty m e acc u hempty,
        dictInsert_of_lookup_none acc u _ hlook]
      rw [ih (acc ++ [(u, create_joint_config_for_urdf m u e)]) hnd' ?fresh]
      · rw [List.filter_cons, List.append_assoc]
        simp [hempty]
      case fresh =>
        intro v hv
        refine lookup_append_none acc _ v (hfresh v (List.mem_cons_of_mem u hv)) ?_
        have hvu : ¬ v = u := fun h => hu (h ▸ hv)
        rw [List.lookup_cons, beq_false_of_ne hvu, List.lookup_nil]

/-- The snapshot used for the C7 counterexample and witness: only the "ARM"
part is present, so every configured part of the "band_separator" URDF is
absent from it. -/
def c7entry : Entry :=
  { sequence_id := 1, timestamp_ns := 0, parts := [("ARM", [1, 2, 3, 4, 5, 6])] }

/-- C7 counterexample: `"band_separator"` is a URDF name known to the
mapper's configuration, but on a snapshot containing only the "ARM" part
the emitted payload has no entry for it — `_update_visualization` skips
URDFs whose joint config is empty, so the payload does not cover every
configured URDF name as the claim states. -/
theorem update_payload_missing_urdf_counterexample :
    "band_separator" ∈ get_all_urdf_names defaultMapping ∧
    ∃ payload, update_visualization defaultMapping [c7entry] true ⟨0, false⟩ = some payload ∧
      List.lookup "band_separator" payload = none := by
  refine ⟨by decide, _, rfl, by decide⟩

/-- C7 amended: on every index change with a registered callback and a
current entry, the payload is built and emitted synchronously, but it
contains exactly the configured URDF names whose joint config for the
current snapshot is non-empty — URDFs none of whose configured parts occur
in the snapshot are omitted, not mapped to an empty entry. -/
theorem update_payload_filtered (m : Mapping) (pd : List Entry) (s : CtrlState)
    (h : s.current_index < pd.length) :
    update_visualization m pd true s =
      some (((get_all_urdf_names m).filter (fun u =>
          !(create_joint_config_for_urdf m u (pd.get ⟨s.current_index, h⟩)).isEmpty)).map
        (fun u => (u, create_joint_config_for_urdf m u (pd.get ⟨s.current_index, h⟩)))) := by
  rw [update_visualization_eq_some m pd s h,
    buildPayload_eq m (pd.get ⟨s.current_index, h⟩) (get_all_urdf_names m)
      (get_all_urdf_names_nodup m)]

/-- Witness for the amended C7 theorem on the ARM-only snapshot. -/
theorem update_payload_filtered_witness :
    update_visualization defaultMapping [c7entry] true ⟨0, false⟩ =
      some (((get_all_urdf_names defaultMapping).filter (fun u =>
          !(create_joint_config_for_urdf defaultMapping u
              ([c7entry].get ⟨(0 : Nat), by decide⟩)).isEmpty)).map
        (fun u => (u, create_joint_config_for_urdf defaultMapping u
            ([c7entry].get ⟨(0 : Nat), by decide⟩)))) :=
  update_payload_filtered defaultMapping [c7entry] ⟨0, false⟩ (by decide)

end RoboVis
